import Mathlib

/-!
Verification of the aesdsocket TCP server (src/server/aesdsocket.c).

The core of the program is `handle_client`: it reads bounded chunks from a
socket into a growable receive buffer, splits the accumulated bytes into
newline-terminated packets, appends each packet to the data file
(/var/tmp/aesdsocketdata) and, after each append, reads the whole file back
and sends it to the client.

The shallow embedding below models bytes as `Nat` (the delimiter '\n' is 10),
the data file as a `List Nat`, and the observable behaviour of a connection as
a trace of append/reply events.  Fallible C calls (realloc, fwrite, the fopen
used for read-back, send) are modelled by per-call boolean oracles collected
in `HEnv`; the all-true environment `okEnv` is the failure-free run.  The
counters `reallocCnt`, `fwriteCnt`, `fopenCnt`, `sendCnt` number those calls
so that an oracle can make a specific call fail.
-/

/-- Observable events of one connection: an append of one packet to the data
file (`ok` records whether the modelled fwrite succeeded) and a reply
(`sent` is the byte sequence actually transmitted, `ok` whether no send
call failed). -/
inductive Ev where
  | append (pkt : List Nat) (ok : Bool)
  | reply (sent : List Nat) (ok : Bool)
deriving Repr, DecidableEq

/-- Fault-injection environment: result of the n-th call of each fallible
operation in `handle_client`. -/
structure HEnv where
  reallocOk : Nat → Bool
  fwriteOk : Nat → Bool
  fopenReadOk : Nat → Bool
  sendOk : Nat → Bool

/-- State of one connection in `handle_client`:
`recvbuf`/`bufsize` model the growable receive buffer (`datalen` is
`recvbuf.length`), `file` the current contents of the data file, `trace` the
events so far.  `aborted` is set on the early-`return` paths; `freed`,
`fileClosed`, `sockClosed` record `free(recvbuf)`, `fclose(fp)`,
`close(clientfd)`. -/
structure HState where
  recvbuf : List Nat
  bufsize : Nat
  file : List Nat
  trace : List Ev
  aborted : Bool
  freed : Bool
  fileClosed : Bool
  sockClosed : Bool
  reallocCnt : Nat
  fwriteCnt : Nat
  fopenCnt : Nat
  sendCnt : Nat
deriving Repr, DecidableEq

/-- Split a byte list into blocks of at most 1024 bytes, mirroring the
`fread(sendbuf, 1, sizeof(sendbuf), fp2)` loop (sendbuf is 1024 bytes).
The first argument is fuel; `chunks1024` supplies enough. -/
def chunksGo : Nat → List Nat → List (List Nat)
  | 0, _ => []
  | _, [] => []
  | fuel + 1, b :: l => ((b :: l).take 1024) :: chunksGo fuel ((b :: l).drop 1024)

/-- Blocks of at most 1024 bytes read from the data file during a reply. -/
def chunks1024 (l : List Nat) : List (List Nat) := chunksGo l.length l

/-- The send loop of lines 209-216: send each 1024-byte block read from the
file; on a failed `send` log and `break` (stop sending this reply).  Returns
the bytes actually sent, the updated send-call counter, and whether every
send succeeded. -/
def sendFile (sOk : Nat → Bool) : Nat → List (List Nat) → List Nat × Nat × Bool
  | cnt, [] => ([], cnt, true)
  | cnt, blk :: rest =>
      if sOk cnt then
        let r := sendFile sOk (cnt + 1) rest
        (blk ++ r.1, r.2.1, r.2.2)
      else ([], cnt + 1, false)

/-- The doubling loop of lines 168-170: starting from `newsize`, double while
`needed >= newsize`.  Fueled; `growSize` supplies enough fuel for the loop to
reach its exit condition, so this matches the C `while` exactly. -/
def growLoop : Nat → Nat → Nat → Nat
  | 0, _, newsize => newsize
  | fuel + 1, needed, newsize =>
      if newsize ≤ needed then growLoop fuel needed (newsize * 2) else newsize

/-- New buffer capacity when `needed = datalen + n` bytes must fit in a buffer
of capacity `bufsize`: start at `bufsize * 2` and keep doubling while
`needed >= newsize` (lines 168-170). -/
def growSize (needed bufsize : Nat) : Nat :=
  growLoop (needed + 1) needed (bufsize * 2)

/-- Lines 193-217: one complete packet was delimited.  `fwrite` the packet to
the data file and `fflush` (return values unchecked in the source!), then
`fopen` the file for reading; on failure free everything and return
(abort).  Otherwise read the file in 1024-byte blocks and send each block,
breaking on a send error. -/
def doPacket (env : HEnv) (st : HState) (pkt : List Nat) : HState :=
  let ok := env.fwriteOk st.fwriteCnt
  let st1 := { st with file := if ok then st.file ++ pkt else st.file,
                       fwriteCnt := st.fwriteCnt + 1,
                       trace := st.trace ++ [Ev.append pkt ok] }
  if env.fopenReadOk st1.fopenCnt then
    let r := sendFile env.sendOk st1.sendCnt (chunks1024 st1.file)
    { st1 with fopenCnt := st1.fopenCnt + 1,
               sendCnt := r.2.1,
               trace := st1.trace ++ [Ev.reply r.1 r.2.2] }
  else
    { st1 with fopenCnt := st1.fopenCnt + 1, aborted := true, freed := true,
               fileClosed := true, sockClosed := true }

/-- The scan loop of lines 190-221: walk the buffer; `acc` holds the bytes of
the current partial packet (the source tracks the same data with the `start`
index).  On a delimiter, process the packet; if that aborted (read-back fopen
failed, which `return`s from `handle_client`), stop.  Returns the updated
state and the undelimited trailing bytes (the leftover the compaction step of
lines 224-229 keeps). -/
def scanBuf (env : HEnv) : HState → List Nat → List Nat → HState × List Nat
  | st, acc, [] => (st, acc)
  | st, acc, b :: rest =>
      if b = 10 then
        let st1 := doPacket env st (acc ++ [10])
        if st1.aborted then (st1, []) else scanBuf env st1 [] rest
      else scanBuf env st (acc ++ [b]) rest

/-- Lines 183-229 once the buffer can hold the chunk: copy the chunk into
`recvbuf`, scan the whole buffer for packets, then compact: `recvbuf` keeps
exactly the undelimited trailing bytes.  If the scan aborted, return
immediately (the buffer was freed; its contents are dead). -/
def ingestScan (env : HEnv) (st : HState) (c : List Nat) : HState :=
  let buf := st.recvbuf ++ c
  let r := scanBuf env { st with recvbuf := buf } [] buf
  if r.1.aborted then r.1 else { r.1 with recvbuf := r.2 }

/-- Lines 162-231, one iteration of the recv loop for a chunk `c` (at most 512
bytes from `recv`, but the logic is size-independent).  The inner
`while (temp_offset < n)` copies all remaining bytes in its first iteration
(`copylen = n - temp_offset`), so it runs exactly once when `n > 0` and never
when `n = 0`.  Before the copy, lines 167-181 grow the buffer if
`datalen + n >= bufsize`; a failed realloc frees the buffer, closes the file
and the socket and returns from `handle_client`. -/
def ingest (env : HEnv) (st : HState) (c : List Nat) : HState :=
  if st.aborted then st
  else if c.isEmpty then st
  else if st.recvbuf.length + c.length ≥ st.bufsize then
    if env.reallocOk st.reallocCnt then
      ingestScan env { st with bufsize := growSize (st.recvbuf.length + c.length) st.bufsize,
                               reallocCnt := st.reallocCnt + 1 } c
    else
      { st with aborted := true, freed := true, fileClosed := true,
                sockClosed := true, reallocCnt := st.reallocCnt + 1 }
  else ingestScan env st c

/-- The recv loop of `handle_client` over a whole connection: the list `cs`
holds the successive non-empty chunks returned by `recv`; the connection ends
when `recv` returns 0 or an error (end of the list). -/
def runChunks (env : HEnv) (st : HState) (cs : List (List Nat)) : HState :=
  cs.foldl (ingest env) st

/-- Connection entry state (lines 149-158): fresh 1024-byte buffer, empty
`datalen`, the data file holds whatever earlier connections appended. -/
def initState (file0 : List Nat) : HState :=
  { recvbuf := [], bufsize := 1024, file := file0, trace := [], aborted := false,
    freed := false, fileClosed := false, sockClosed := false,
    reallocCnt := 0, fwriteCnt := 0, fopenCnt := 0, sendCnt := 0 }

/-- `handle_client` on one connection: run the recv loop, then (lines 233-235)
free the buffer, close the file and close the client socket.  The abort paths
already released everything. -/
def handleClient (env : HEnv) (file0 : List Nat) (cs : List (List Nat)) : HState :=
  let st := runChunks env (initState file0) cs
  if st.aborted then st
  else { st with freed := true, fileClosed := true, sockClosed := true }

/-- The failure-free environment: every realloc, fwrite, fopen and send
succeeds. -/
def okEnv : HEnv :=
  { reallocOk := fun _ => true, fwriteOk := fun _ => true,
    fopenReadOk := fun _ => true, sendOk := fun _ => true }

/-- Environment in which the first `send` call fails and all later ones
succeed (all other operations succeed). -/
def sendFailEnv : HEnv :=
  { okEnv with sendOk := fun i => decide (0 < i) }

/-- Environment in which the first `fwrite` call fails and all later ones
succeed (all other operations succeed). -/
def fwriteFailEnv : HEnv :=
  { okEnv with fwriteOk := fun i => decide (0 < i) }

/-- Environment in which every `realloc` call fails. -/
def reallocFailEnv : HEnv :=
  { okEnv with reallocOk := fun _ => false }

/-- The accept loop of `listen_socket` (lines 247-261): handle each accepted
connection in sequence; the data file persists between connections.
`handle_client` returns on every per-connection failure, so the loop always
proceeds to the next connection. -/
def serverRun : List Nat → List (HEnv × List (List Nat)) → List HState × List Nat
  | file0, [] => ([], file0)
  | file0, conn :: rest =>
      let st := handleClient conn.1 file0 conn.2
      let r := serverRun st.file rest
      (st :: r.1, r.2)

/-! ### Abstract byte-level machine

The scan loop consumes the buffer byte by byte, so a connection's observable
behaviour is a fold of a per-byte step over the received byte stream.  `Abs`
carries exactly the fields of `HState` that the scan loop reads or writes. -/

/-- Packet splitting of a byte stream: `packetsLoop acc bytes` returns the
complete newline-terminated packets (the pending partial packet `acc`
extended by `bytes`, cut after every 10) and the undelimited trailing
bytes. -/
def packetsLoop : List Nat → List Nat → List (List Nat) × List Nat
  | acc, [] => ([], acc)
  | acc, b :: rest =>
      if b = 10 then
        let r := packetsLoop [] rest
        ((acc ++ [10]) :: r.1, r.2)
      else packetsLoop (acc ++ [b]) rest

/-- The complete packets delimited in a byte stream, in order. -/
def packetsOf (bytes : List Nat) : List (List Nat) := (packetsLoop [] bytes).1

/-- The trailing bytes of a byte stream after its last delimiter. -/
def leftoverOf (bytes : List Nat) : List Nat := (packetsLoop [] bytes).2

/-- Projection of the connection state onto the fields the scan loop
touches; `acc` is the pending partial packet. -/
structure Abs where
  acc : List Nat
  file : List Nat
  tr : List Ev
  wcnt : Nat
  ocnt : Nat
  scnt : Nat
deriving Repr, DecidableEq

/-- One byte of the scan loop on the abstract state (fopen for read-back
assumed to succeed; fwrite and send governed by the oracles). -/
def absStep (fw sOk : Nat → Bool) (a : Abs) (b : Nat) : Abs :=
  if b = 10 then
    let pkt := a.acc ++ [10]
    let ok := fw a.wcnt
    let f := if ok then a.file ++ pkt else a.file
    let r := sendFile sOk a.scnt (chunks1024 f)
    ⟨[], f, a.tr ++ [Ev.append pkt ok, Ev.reply r.1 r.2.2], a.wcnt + 1, a.ocnt + 1, r.2.1⟩
  else ⟨a.acc ++ [b], a.file, a.tr, a.wcnt, a.ocnt, a.scnt⟩

/-- Abstract view of a connection state with pending partial packet `acc`. -/
def absOf (st : HState) (acc : List Nat) : Abs :=
  ⟨acc, st.file, st.trace, st.fwriteCnt, st.fopenCnt, st.sendCnt⟩

/-- Impose an abstract state's fields back onto a connection state. -/
def stOf (st : HState) (a : Abs) : HState :=
  { st with file := a.file, trace := a.tr, fwriteCnt := a.wcnt,
            fopenCnt := a.ocnt, sendCnt := a.scnt }

/-- Closed form of the abstract machine on a packet list: append each packet
(subject to the fwrite oracle) and reply with the bytes the send loop gets
through.  The pending `acc` is reset, matching the cut after a delimiter. -/
def replyRun (fw sOk : Nat → Bool) (a : Abs) : List (List Nat) → Abs
  | [] => { a with acc := [] }
  | p :: ps =>
      let ok := fw a.wcnt
      let f := if ok then a.file ++ p else a.file
      let r := sendFile sOk a.scnt (chunks1024 f)
      replyRun fw sOk ⟨[], f, a.tr ++ [Ev.append p ok, Ev.reply r.1 r.2.2],
                       a.wcnt + 1, a.ocnt + 1, r.2.1⟩ ps

/-- Failure-free trace on a packet list: each packet is appended and the full
file at that instant is sent back. -/
def okTrace (file : List Nat) : List (List Nat) → List Ev
  | [] => []
  | p :: ps => Ev.append p true :: Ev.reply (file ++ p) true :: okTrace (file ++ p) ps

/-- The packets appended (fwrite calls), in order, of a trace. -/
def appendsOf (t : List Ev) : List (List Nat) :=
  t.filterMap fun e => match e with | Ev.append p _ => some p | _ => none

/-- The byte sequences sent as replies, in order, of a trace. -/
def repliesOf (t : List Ev) : List (List Nat) :=
  t.filterMap fun e => match e with | Ev.reply s _ => some s | _ => none

/-! ### Basic lemmas on the auxiliary loops -/

theorem sendFile_ok (sOk : Nat → Bool) (hs : ∀ i, sOk i = true) :
    ∀ blocks cnt, sendFile sOk cnt blocks = (blocks.flatten, cnt + blocks.length, true) := by
  intro blocks
  induction blocks with
  | nil => intro cnt; simp [sendFile]
  | cons blk rest ih =>
      intro cnt
      simp [sendFile, hs, ih]
      omega

theorem chunksGo_flatten : ∀ fuel l, l.length ≤ fuel → (chunksGo fuel l).flatten = l := by
  intro fuel
  induction fuel with
  | zero => intro l hl; simp at hl; simp [chunksGo, hl]
  | succ fuel ih =>
      intro l hl
      match l with
      | [] => simp [chunksGo]
      | b :: l =>
          simp only [chunksGo, List.flatten_cons]
          rw [ih ((b :: l).drop 1024)
            (by simp only [List.length_drop, List.length_cons] at hl ⊢; omega)]
          exact List.take_append_drop _ _

theorem chunks1024_flatten (l : List Nat) : (chunks1024 l).flatten = l :=
  chunksGo_flatten l.length l le_rfl

theorem growLoop_gt : ∀ fuel needed ns, 1 ≤ ns → needed + 1 ≤ fuel + ns →
    needed < growLoop fuel needed ns := by
  intro fuel
  induction fuel with
  | zero => intro needed ns _ h; simp [growLoop]; omega
  | succ fuel ih =>
      intro needed ns h1 h2
      simp only [growLoop]
      split
      · exact ih needed (ns * 2) (by omega) (by omega)
      · omega

theorem growSize_gt (needed bufsize : Nat) (h : 1 ≤ bufsize) :
    needed < growSize needed bufsize :=
  growLoop_gt (needed + 1) needed (bufsize * 2) (by omega) (by omega)

/-! ### Lemmas on the packet splitter -/

theorem packetsLoop_concat :
    ∀ bytes acc, ((packetsLoop acc bytes).1).flatten ++ (packetsLoop acc bytes).2 = acc ++ bytes := by
  intro bytes
  induction bytes with
  | nil => intro acc; simp [packetsLoop]
  | cons b rest ih =>
      intro acc
      by_cases hb : b = 10
      · subst hb
        simp only [packetsLoop, reduceIte, List.flatten_cons, List.append_assoc]
        rw [ih []]
        simp
      · simp only [packetsLoop, if_neg hb]
        rw [ih (acc ++ [b])]
        simp

theorem packetsLoop_no_nl :
    ∀ bytes acc, 10 ∉ acc → 10 ∉ (packetsLoop acc bytes).2 := by
  intro bytes
  induction bytes with
  | nil => intro acc h; simpa [packetsLoop] using h
  | cons b rest ih =>
      intro acc h
      by_cases hb : b = 10
      · subst hb
        simp only [packetsLoop, if_pos rfl]
        exact ih [] (by simp)
      · simp only [packetsLoop, if_neg hb]
        exact ih (acc ++ [b]) (by simp [h, Ne.symm hb])

theorem packetsLoop_last :
    ∀ bytes acc p, p ∈ (packetsLoop acc bytes).1 → p.getLast? = some 10 := by
  intro bytes
  induction bytes with
  | nil => intro acc p hp; simp [packetsLoop] at hp
  | cons b rest ih =>
      intro acc p hp
      by_cases hb : b = 10
      · subst hb
        simp only [packetsLoop, reduceIte, List.mem_cons] at hp
        rcases hp with h1 | h1
        · subst h1; exact List.getLast?_concat _
        · exact ih [] p h1
      · simp only [packetsLoop, if_neg hb] at hp
        exact ih (acc ++ [b]) p hp

theorem packetsLoop_nl_free :
    ∀ bytes acc, 10 ∉ bytes → packetsLoop acc bytes = ([], acc ++ bytes) := by
  intro bytes
  induction bytes with
  | nil => intro acc _; simp [packetsLoop]
  | cons b rest ih =>
      intro acc h
      simp only [List.mem_cons, not_or] at h
      have hb : ¬ (b = 10) := fun hbe => h.1 hbe.symm
      simp only [packetsLoop, if_neg hb]
      rw [ih (acc ++ [b]) h.2]
      simp

/-! ### Lemmas on traces -/

theorem appendsOf_append (t1 t2 : List Ev) :
    appendsOf (t1 ++ t2) = appendsOf t1 ++ appendsOf t2 := by
  simp [appendsOf, List.filterMap_append]

theorem repliesOf_append (t1 t2 : List Ev) :
    repliesOf (t1 ++ t2) = repliesOf t1 ++ repliesOf t2 := by
  simp [repliesOf, List.filterMap_append]

theorem appendsOf_okTrace : ∀ ps file, appendsOf (okTrace file ps) = ps := by
  intro ps
  induction ps with
  | nil => intro file; simp [okTrace, appendsOf]
  | cons p ps ih => intro file; simp [okTrace, appendsOf, List.filterMap] at *; exact ih _

theorem repliesOf_okTrace_len :
    ∀ ps (file : List Nat), (repliesOf (okTrace file ps)).length = ps.length := by
  intro ps
  induction ps with
  | nil => intro file; simp [okTrace, repliesOf]
  | cons p ps ih =>
      intro file
      simp only [okTrace, repliesOf, List.filterMap, List.length_cons] at *
      rw [ih (file ++ p)]

theorem repliesOf_okTrace_get :
    ∀ ps (file : List Nat) k, k < ps.length →
      (repliesOf (okTrace file ps)).get? k = some (file ++ ((ps.take (k + 1)).flatten)) := by
  intro ps
  induction ps with
  | nil => intro file k h; simp at h
  | cons p ps ih =>
      intro file k h
      match k with
      | 0 => simp [okTrace, repliesOf, List.filterMap]
      | k + 1 =>
          have hh : k < ps.length := by simpa using h
          have h2 := ih (file ++ p) k hh
          simp only [okTrace, repliesOf, List.filterMap] at h2 ⊢
          simpa [List.append_assoc] using h2

/-! ### Closed form of the abstract byte machine -/

theorem replyRun_acc_irrel (fw sOk : Nat → Bool) :
    ∀ (ps : List (List Nat)) (x y f : List Nat) (t : List Ev) (w o s : Nat),
      replyRun fw sOk ⟨x, f, t, w, o, s⟩ ps = replyRun fw sOk ⟨y, f, t, w, o, s⟩ ps := by
  intro ps
  induction ps with
  | nil => intro x y f t w o s; simp [replyRun]
  | cons p ps ih => intro x y f t w o s; simp only [replyRun]

theorem absRun_eq (fw sOk : Nat → Bool) :
    ∀ (bytes : List Nat) (a : Abs),
      List.foldl (absStep fw sOk) a bytes =
        { replyRun fw sOk a (packetsLoop a.acc bytes).1 with
          acc := (packetsLoop a.acc bytes).2 } := by
  intro bytes
  induction bytes with
  | nil => intro a; simp [packetsLoop, replyRun]
  | cons b rest ih =>
      intro a
      by_cases hb : b = 10
      · subst hb
        rw [List.foldl_cons, ih]
        simp only [absStep, reduceIte, packetsLoop]
        rw [replyRun]
      · rw [List.foldl_cons, ih]
        simp only [absStep, if_neg hb, packetsLoop]
        rw [replyRun_acc_irrel fw sOk (packetsLoop (a.acc ++ [b]) rest).1
          (a.acc ++ [b]) a.acc a.file a.tr a.wcnt a.ocnt a.scnt]

theorem absRun_acc (fw sOk : Nat → Bool) (bytes : List Nat) (a : Abs) :
    (List.foldl (absStep fw sOk) a bytes).acc = (packetsLoop a.acc bytes).2 := by
  rw [absRun_eq]

theorem replyRun_appends (fw sOk : Nat → Bool) :
    ∀ (ps : List (List Nat)) (a : Abs),
      appendsOf (replyRun fw sOk a ps).tr = appendsOf a.tr ++ ps := by
  intro ps
  induction ps with
  | nil => intro a; simp [replyRun]
  | cons p ps ih =>
      intro a
      rw [replyRun, ih]
      simp [appendsOf_append, appendsOf]

theorem replyRun_replies_len (fw sOk : Nat → Bool) :
    ∀ (ps : List (List Nat)) (a : Abs),
      (repliesOf (replyRun fw sOk a ps).tr).length = (repliesOf a.tr).length + ps.length := by
  intro ps
  induction ps with
  | nil => intro a; simp [replyRun]
  | cons p ps ih =>
      intro a
      rw [replyRun, ih]
      simp [repliesOf_append, repliesOf]
      omega

theorem replyRun_file (fw sOk : Nat → Bool) (hfw : ∀ i, fw i = true) :
    ∀ (ps : List (List Nat)) (a : Abs),
      (replyRun fw sOk a ps).file = a.file ++ ps.flatten := by
  intro ps
  induction ps with
  | nil => intro a; simp [replyRun]
  | cons p ps ih =>
      intro a
      rw [replyRun, ih]
      simp [hfw]

theorem replyRun_okTrace (fw sOk : Nat → Bool) (hfw : ∀ i, fw i = true)
    (hs : ∀ i, sOk i = true) :
    ∀ (ps : List (List Nat)) (a : Abs),
      (replyRun fw sOk a ps).tr = a.tr ++ okTrace a.file ps := by
  intro ps
  induction ps with
  | nil => intro a; simp [replyRun, okTrace]
  | cons p ps ih =>
      intro a
      rw [replyRun, ih]
      simp only [hfw, if_true, reduceIte, sendFile_ok sOk hs, chunks1024_flatten, okTrace]
      simp [List.append_assoc]

/-! ### The scan loop simulates the abstract machine -/

theorem scanBuf_shift (env : HEnv) :
    ∀ (pre : List Nat) (st : HState) (acc rest : List Nat), 10 ∉ pre →
      scanBuf env st acc (pre ++ rest) = scanBuf env st (acc ++ pre) rest := by
  intro pre
  induction pre with
  | nil => intro st acc rest _; simp [scanBuf]
  | cons b pre ih =>
      intro st acc rest h
      simp only [List.mem_cons, not_or] at h
      have hb : ¬ (b = 10) := fun hbe => h.1 hbe.symm
      simp only [List.cons_append, scanBuf, if_neg hb, List.append_eq]
      rw [ih st (acc ++ [b]) rest h.2]
      simp [List.append_assoc]

theorem scanBuf_abs (env : HEnv) (hfo : ∀ i, env.fopenReadOk i = true) :
    ∀ (c : List Nat) (st : HState) (acc : List Nat), st.aborted = false →
      scanBuf env st acc c =
        (stOf st (List.foldl (absStep env.fwriteOk env.sendOk) (absOf st acc) c),
         (List.foldl (absStep env.fwriteOk env.sendOk) (absOf st acc) c).acc) := by
  intro c
  induction c with
  | nil =>
      intro st acc hab
      rfl
  | cons b rest ih =>
      intro st acc hab
      by_cases hb : b = 10
      · subst hb
        have h1 : (doPacket env st (acc ++ [10])).aborted = false := by
          simp [doPacket, hfo, hab]
        simp only [scanBuf, reduceIte, h1, Bool.false_eq_true, if_false]
        rw [ih (doPacket env st (acc ++ [10])) [] h1]
        have habs : absOf (doPacket env st (acc ++ [10])) [] =
            absStep env.fwriteOk env.sendOk (absOf st acc) 10 := by
          simp [doPacket, absOf, absStep, hfo, List.append_assoc]
        have hst : ∀ a, stOf (doPacket env st (acc ++ [10])) a = stOf st a := by
          intro a; simp [doPacket, stOf, hfo]
        rw [habs, hst]
        rfl
      · simp only [scanBuf, if_neg hb]
        rw [ih st (acc ++ [b]) hab]
        have habs : absStep env.fwriteOk env.sendOk (absOf st acc) b = absOf st (acc ++ [b]) := by
          simp [absStep, absOf, hb]
        rw [List.foldl_cons, habs]

/-! ### The ingest step and the whole recv loop simulate the abstract machine -/

theorem ingestScan_abs (env : HEnv) (hfo : ∀ i, env.fopenReadOk i = true)
    (st : HState) (c : List Nat) (hab : st.aborted = false) (hnl : 10 ∉ st.recvbuf) :
    ingestScan env st c =
      { stOf st (List.foldl (absStep env.fwriteOk env.sendOk) (absOf st st.recvbuf) c) with
        recvbuf := (List.foldl (absStep env.fwriteOk env.sendOk) (absOf st st.recvbuf) c).acc } := by
  set A := List.foldl (absStep env.fwriteOk env.sendOk) (absOf st st.recvbuf) c with hA
  have h2 := scanBuf_shift env st.recvbuf { st with recvbuf := st.recvbuf ++ c } [] c hnl
  rw [List.nil_append] at h2
  have h3 := scanBuf_abs env hfo c { st with recvbuf := st.recvbuf ++ c } st.recvbuf
    (by simp [hab])
  have habs : absOf { st with recvbuf := st.recvbuf ++ c } st.recvbuf = absOf st st.recvbuf := rfl
  rw [habs, ← hA] at h3
  unfold ingestScan
  simp only []
  rw [h2, h3]
  have haborted : (stOf { st with recvbuf := st.recvbuf ++ c } A).aborted = false := by
    simp [stOf, hab]
  simp only [haborted, Bool.false_eq_true, if_false]
  simp [stOf, hab]

theorem ingest_abs (env : HEnv) (hre : ∀ i, env.reallocOk i = true)
    (hfo : ∀ i, env.fopenReadOk i = true) (st : HState) (c : List Nat)
    (hab : st.aborted = false) (hnl : 10 ∉ st.recvbuf) :
    ingest env st c =
      { stOf st (List.foldl (absStep env.fwriteOk env.sendOk) (absOf st st.recvbuf) c) with
        recvbuf := (List.foldl (absStep env.fwriteOk env.sendOk) (absOf st st.recvbuf) c).acc,
        bufsize := if c.isEmpty = false ∧ st.recvbuf.length + c.length ≥ st.bufsize
                   then growSize (st.recvbuf.length + c.length) st.bufsize else st.bufsize,
        reallocCnt := if c.isEmpty = false ∧ st.recvbuf.length + c.length ≥ st.bufsize
                      then st.reallocCnt + 1 else st.reallocCnt } := by
  by_cases hc : c.isEmpty
  · have hcc : c = [] := by simpa using hc
    subst hcc
    have hl : ingest env st [] = st := by simp [ingest]
    rw [hl]
    simp [stOf, absOf]
  · have hc' : c.isEmpty = false := by simpa using hc
    by_cases hg : st.recvbuf.length + c.length ≥ st.bufsize
    · have hmain := ingestScan_abs env hfo
        { st with bufsize := growSize (st.recvbuf.length + c.length) st.bufsize,
                  reallocCnt := st.reallocCnt + 1 } c (by simp [hab]) (by simpa using hnl)
      have hL : ingest env st c =
          ingestScan env { st with bufsize := growSize (st.recvbuf.length + c.length) st.bufsize,
                                   reallocCnt := st.reallocCnt + 1 } c := by
        simp [ingest, hab, hc', hg, hre]
      rw [hL, hmain]
      simp [stOf, absOf, hc', hg]
    · have hmain := ingestScan_abs env hfo st c hab hnl
      have hL : ingest env st c = ingestScan env st c := by
        simp [ingest, hab, hc', hg]
      rw [hL, hmain]
      simp [stOf, hc', hg]

theorem runChunks_abs (env : HEnv) (hre : ∀ i, env.reallocOk i = true)
    (hfo : ∀ i, env.fopenReadOk i = true) :
    ∀ (cs : List (List Nat)) (st : HState), st.aborted = false → 10 ∉ st.recvbuf →
      (runChunks env st cs).recvbuf
          = (List.foldl (absStep env.fwriteOk env.sendOk) (absOf st st.recvbuf) cs.flatten).acc ∧
      (runChunks env st cs).file
          = (List.foldl (absStep env.fwriteOk env.sendOk) (absOf st st.recvbuf) cs.flatten).file ∧
      (runChunks env st cs).trace
          = (List.foldl (absStep env.fwriteOk env.sendOk) (absOf st st.recvbuf) cs.flatten).tr ∧
      (runChunks env st cs).aborted = false ∧
      (runChunks env st cs).freed = st.freed ∧
      (runChunks env st cs).fileClosed = st.fileClosed ∧
      (runChunks env st cs).sockClosed = st.sockClosed := by
  intro cs
  induction cs with
  | nil =>
      intro st hab hnl
      exact ⟨rfl, rfl, rfl, hab, rfl, rfl, rfl⟩
  | cons c cs ih =>
      intro st hab hnl
      have hstep := ingest_abs env hre hfo st c hab hnl
      have hab1 : (ingest env st c).aborted = false := by rw [hstep]; simp [stOf, hab]
      have hrecv : (ingest env st c).recvbuf
          = (List.foldl (absStep env.fwriteOk env.sendOk) (absOf st st.recvbuf) c).acc := by
        rw [hstep]
      have hnl1 : 10 ∉ (ingest env st c).recvbuf := by
        rw [hrecv, absRun_acc]
        exact packetsLoop_no_nl c st.recvbuf hnl
      have habs : absOf (ingest env st c) (ingest env st c).recvbuf
          = List.foldl (absStep env.fwriteOk env.sendOk) (absOf st st.recvbuf) c := by
        rw [hstep]; simp [absOf, stOf]
      have hfr : (ingest env st c).freed = st.freed := by rw [hstep]; simp [stOf]
      have hfc : (ingest env st c).fileClosed = st.fileClosed := by rw [hstep]; simp [stOf]
      have hsc : (ingest env st c).sockClosed = st.sockClosed := by rw [hstep]; simp [stOf]
      obtain ⟨h1, h2, h3, h4, h5, h6, h7⟩ := ih (ingest env st c) hab1 hnl1
      rw [habs] at h1 h2 h3
      have hrc : runChunks env st (c :: cs) = runChunks env (ingest env st c) cs := rfl
      refine ⟨?_, ?_, ?_, ?_, ?_, ?_, ?_⟩
      · rw [hrc, h1, List.flatten_cons, List.foldl_append]
      · rw [hrc, h2, List.flatten_cons, List.foldl_append]
      · rw [hrc, h3, List.flatten_cons, List.foldl_append]
      · rw [hrc]; exact h4
      · rw [hrc, h5, hfr]
      · rw [hrc, h6, hfc]
      · rw [hrc, h7, hsc]

theorem handleClient_core (env : HEnv) (hre : ∀ i, env.reallocOk i = true)
    (hfo : ∀ i, env.fopenReadOk i = true) (file0 : List Nat) (cs : List (List Nat)) :
    (handleClient env file0 cs).aborted = false ∧
    (handleClient env file0 cs).recvbuf = leftoverOf cs.flatten ∧
    (handleClient env file0 cs).trace =
        (replyRun env.fwriteOk env.sendOk ⟨[], file0, [], 0, 0, 0⟩ (packetsOf cs.flatten)).tr ∧
    (handleClient env file0 cs).file =
        (replyRun env.fwriteOk env.sendOk ⟨[], file0, [], 0, 0, 0⟩ (packetsOf cs.flatten)).file ∧
    (handleClient env file0 cs).freed = true ∧
    (handleClient env file0 cs).fileClosed = true ∧
    (handleClient env file0 cs).sockClosed = true := by
  obtain ⟨h1, h2, h3, h4, h5, h6, h7⟩ :=
    runChunks_abs env hre hfo cs (initState file0) rfl (by simp [initState])
  have hinit : absOf (initState file0) (initState file0).recvbuf = ⟨[], file0, [], 0, 0, 0⟩ := rfl
  rw [hinit] at h1 h2 h3
  rw [absRun_eq] at h1 h2 h3
  have hcl : handleClient env file0 cs =
      { (runChunks env (initState file0) cs) with
        freed := true, fileClosed := true, sockClosed := true } := by
    unfold handleClient
    simp only []
    simp only [h4, Bool.false_eq_true, if_false]
  refine ⟨?_, ?_, ?_, ?_, ?_, ?_, ?_⟩
  · rw [hcl]; simpa using h4
  · rw [hcl]; simpa [leftoverOf] using h1
  · rw [hcl]; simpa [packetsOf] using h3
  · rw [hcl]; simpa [packetsOf] using h2
  · rw [hcl]
  · rw [hcl]
  · rw [hcl]

/-! ### Failure-free characterization and invariants -/

theorem handleClient_ok (file0 : List Nat) (cs : List (List Nat)) :
    (handleClient okEnv file0 cs).trace = okTrace file0 (packetsOf cs.flatten) ∧
    (handleClient okEnv file0 cs).file = file0 ++ (packetsOf cs.flatten).flatten ∧
    (handleClient okEnv file0 cs).recvbuf = leftoverOf cs.flatten ∧
    (handleClient okEnv file0 cs).aborted = false := by
  obtain ⟨ha, hr, ht, hf, _, _, _⟩ :=
    handleClient_core okEnv (fun _ => rfl) (fun _ => rfl) file0 cs
  refine ⟨?_, ?_, hr, ha⟩
  · rw [ht, replyRun_okTrace okEnv.fwriteOk okEnv.sendOk (fun _ => rfl) (fun _ => rfl)]
    simp
  · rw [hf, replyRun_file okEnv.fwriteOk okEnv.sendOk (fun _ => rfl)]

theorem absFold_no_nl (fw sOk : Nat → Bool) :
    ∀ (c : List Nat) (a : Abs), 10 ∉ c →
      List.foldl (absStep fw sOk) a c = { a with acc := a.acc ++ c } := by
  intro c
  induction c with
  | nil => intro a _; simp
  | cons b rest ih =>
      intro a h
      simp only [List.mem_cons, not_or] at h
      have hb : ¬ (b = 10) := fun hbe => h.1 hbe.symm
      rw [List.foldl_cons, show absStep fw sOk a b = { a with acc := a.acc ++ [b] } from
        by simp [absStep, hb], ih _ h.2]
      simp

theorem ingest_keeps (env : HEnv) (hre : ∀ i, env.reallocOk i = true)
    (hfo : ∀ i, env.fopenReadOk i = true) (st : HState) (c : List Nat)
    (hab : st.aborted = false) (hnl : 10 ∉ st.recvbuf) :
    (ingest env st c).aborted = false ∧ 10 ∉ (ingest env st c).recvbuf := by
  have hstep := ingest_abs env hre hfo st c hab hnl
  constructor
  · rw [hstep]; simp [stOf, hab]
  · rw [hstep]
    simp only []
    rw [absRun_acc]
    exact packetsLoop_no_nl c st.recvbuf hnl

theorem ingest_inv (env : HEnv) (hre : ∀ i, env.reallocOk i = true)
    (hfo : ∀ i, env.fopenReadOk i = true) (st : HState) (c : List Nat)
    (hab : st.aborted = false) (hnl : 10 ∉ st.recvbuf)
    (hinv : st.recvbuf.length < st.bufsize) :
    (ingest env st c).recvbuf.length < (ingest env st c).bufsize := by
  have hstep := ingest_abs env hre hfo st c hab hnl
  have hlen : (List.foldl (absStep env.fwriteOk env.sendOk) (absOf st st.recvbuf) c).acc.length
      ≤ st.recvbuf.length + c.length := by
    rw [absRun_acc]
    have hc := congrArg List.length (packetsLoop_concat c st.recvbuf)
    simp only [List.length_append] at hc
    have hacc : (absOf st st.recvbuf).acc = st.recvbuf := rfl
    rw [hacc]
    omega
  rw [hstep]
  simp only []
  split
  · rename_i hP
    have hgt := growSize_gt (st.recvbuf.length + c.length) st.bufsize (by omega)
    omega
  · rename_i hP
    rcases not_and_or.mp hP with h | h
    · rcases c with _ | ⟨b, cc⟩
      · simp only [List.length_nil] at hlen
        omega
      · simp at h
    · omega

theorem runChunks_inv (env : HEnv) (hre : ∀ i, env.reallocOk i = true)
    (hfo : ∀ i, env.fopenReadOk i = true) :
    ∀ (cs : List (List Nat)) (st : HState), st.aborted = false → 10 ∉ st.recvbuf →
      st.recvbuf.length < st.bufsize →
      (runChunks env st cs).recvbuf.length < (runChunks env st cs).bufsize := by
  intro cs
  induction cs with
  | nil => intro st _ _ h; exact h
  | cons c cs ih =>
      intro st hab hnl hinv
      obtain ⟨hab1, hnl1⟩ := ingest_keeps env hre hfo st c hab hnl
      exact ih (ingest env st c) hab1 hnl1 (ingest_inv env hre hfo st c hab hnl hinv)

/-! ### Claim theorems -/

/-- C1: for every byte stream received on one connection, the behaviour of
`handle_client` (the trace of appends and replies, the final data file and
the leftover receive buffer) depends only on the concatenated byte stream,
not on how `recv` splits it into chunks: re-chunking never changes the set,
content, or order of yielded packets or replies. -/
theorem c1_reassembler_chunk_independence (file0 : List Nat) (cs1 cs2 : List (List Nat))
    (h : cs1.flatten = cs2.flatten) :
    (handleClient okEnv file0 cs1).trace = (handleClient okEnv file0 cs2).trace ∧
    (handleClient okEnv file0 cs1).file = (handleClient okEnv file0 cs2).file ∧
    (handleClient okEnv file0 cs1).recvbuf = (handleClient okEnv file0 cs2).recvbuf := by
  obtain ⟨ht1, hf1, hr1, _⟩ := handleClient_ok file0 cs1
  obtain ⟨ht2, hf2, hr2, _⟩ := handleClient_ok file0 cs2
  rw [ht1, hf1, hr1, ht2, hf2, hr2, h]
  exact ⟨rfl, rfl, rfl⟩

/-- Witness for C1 at a concrete input: `"hi\n"` delivered in one chunk and
split into two chunks yields the same behaviour. -/
theorem c1_reassembler_chunk_independence_witness :
    ([[104, 105, 10]] : List (List Nat)).flatten = ([[104], [105, 10]] : List (List Nat)).flatten ∧
    ((handleClient okEnv [] [[104, 105, 10]]).trace
        = (handleClient okEnv [] [[104], [105, 10]]).trace ∧
     (handleClient okEnv [] [[104, 105, 10]]).file
        = (handleClient okEnv [] [[104], [105, 10]]).file ∧
     (handleClient okEnv [] [[104, 105, 10]]).recvbuf
        = (handleClient okEnv [] [[104], [105, 10]]).recvbuf) :=
  ⟨by decide, c1_reassembler_chunk_independence [] [[104, 105, 10]] [[104], [105, 10]] (by decide)⟩

/-- C2: the concatenation of all packets appended on a connection, followed
by the final contents of the receive buffer, is exactly the byte stream the
client sent; the leftover contains no delimiter and every appended packet
ends with the delimiter — so the appends cover exactly the bytes up to and
including the last newline, and the trailing bytes are retained, not lost. -/
theorem c2_no_loss_no_duplication (file0 : List Nat) (cs : List (List Nat)) :
    (appendsOf (handleClient okEnv file0 cs).trace).flatten
        ++ (handleClient okEnv file0 cs).recvbuf = cs.flatten ∧
    10 ∉ (handleClient okEnv file0 cs).recvbuf ∧
    ∀ p ∈ appendsOf (handleClient okEnv file0 cs).trace, p.getLast? = some 10 := by
  obtain ⟨ht, _, hr, _⟩ := handleClient_ok file0 cs
  rw [ht, hr, appendsOf_okTrace]
  refine ⟨?_, ?_, ?_⟩
  · simpa [packetsOf, leftoverOf] using packetsLoop_concat cs.flatten []
  · exact packetsLoop_no_nl cs.flatten [] (by simp)
  · intro p hp
    exact packetsLoop_last cs.flatten [] p hp

/-- C3: a client sending `"a\n" ++ "b\n"` in a single chunk to a freshly
started server causes exactly two appends, `"a\n"` then `"b\n"`, and two
replies, `"a\n"` then `"a\nb\n"`, interleaved in exactly that order. -/
theorem c3_multi_packet_single_read :
    (handleClient okEnv [] [[97, 10, 98, 10]]).trace =
      [Ev.append [97, 10] true, Ev.reply [97, 10] true,
       Ev.append [98, 10] true, Ev.reply [97, 10, 98, 10] true] := by decide

/-- C4: the k-th reply sent on a connection equals, byte for byte, the full
contents of the data file at that instant: the initial file contents
followed by every packet appended so far (packets 1..k+1), in append
order. -/
theorem c4_reply_completeness (file0 : List Nat) (cs : List (List Nat)) (k : Nat)
    (h : k < (repliesOf (handleClient okEnv file0 cs).trace).length) :
    (repliesOf (handleClient okEnv file0 cs).trace).get? k =
      some (file0 ++ ((appendsOf (handleClient okEnv file0 cs).trace).take (k + 1)).flatten) := by
  obtain ⟨ht, _, _, _⟩ := handleClient_ok file0 cs
  rw [ht] at h ⊢
  rw [appendsOf_okTrace]
  rw [repliesOf_okTrace_len] at h
  exact repliesOf_okTrace_get (packetsOf cs.flatten) file0 k h

/-- Witness for C4 at a concrete input: the first reply after `"hi\n"` is the
whole store `"hi\n"`. -/
theorem c4_reply_completeness_witness :
    0 < (repliesOf (handleClient okEnv [] [[104, 105, 10]]).trace).length ∧
    (repliesOf (handleClient okEnv [] [[104, 105, 10]]).trace).get? 0 =
      some ([] ++ ((appendsOf (handleClient okEnv [] [[104, 105, 10]]).trace).take (0 + 1)).flatten) :=
  ⟨by decide, c4_reply_completeness [] [[104, 105, 10]] 0 (by decide)⟩

/-- C5 counterexample: in the environment where the first `send` call fails,
`handle_client` on the single chunk `"a\nb\n"` still appends the second
packet `"b\n"` and still transmits a second (successful) reply after the
failed send: the trace contains a failed reply followed by a further append
and further sent bytes, so the Handler does not transition to CLOSING on a
send error as the claim states. -/
theorem c5_counterexample :
    (handleClient sendFailEnv [] [[97, 10, 98, 10]]).trace =
      [Ev.append [97, 10] true, Ev.reply [] false,
       Ev.append [98, 10] true, Ev.reply [97, 10, 98, 10] true] ∧
    (handleClient sendFailEnv [] [[97, 10, 98, 10]]).aborted = false := by decide

/-- C5 (amended): on a send error `handle_client` logs a failure and abandons
only the remainder of that one reply; it does not close the connection: it
keeps receiving, keeps appending every delimited packet, and attempts every
later reply.  Formally, for an arbitrary send oracle the run never aborts
and the appends, the data file and the receive buffer are exactly those of
the failure-free run. -/
theorem c5_amended_send_error_keeps_processing (sOk : Nat → Bool) (file0 : List Nat)
    (cs : List (List Nat)) :
    (handleClient { okEnv with sendOk := sOk } file0 cs).aborted = false ∧
    appendsOf (handleClient { okEnv with sendOk := sOk } file0 cs).trace
        = appendsOf (handleClient okEnv file0 cs).trace ∧
    (handleClient { okEnv with sendOk := sOk } file0 cs).file
        = (handleClient okEnv file0 cs).file ∧
    (handleClient { okEnv with sendOk := sOk } file0 cs).recvbuf
        = (handleClient okEnv file0 cs).recvbuf := by
  obtain ⟨ha, hr, ht, hf, _, _, _⟩ :=
    handleClient_core { okEnv with sendOk := sOk } (fun _ => rfl) (fun _ => rfl) file0 cs
  obtain ⟨ht2, hf2, hr2, _⟩ := handleClient_ok file0 cs
  refine ⟨ha, ?_, ?_, ?_⟩
  · rw [ht, ht2, replyRun_appends, appendsOf_okTrace]
    simp [appendsOf]
  · rw [hf, hf2]
    exact replyRun_file _ _ (fun _ => rfl) (packetsOf cs.flatten) ⟨[], file0, [], 0, 0, 0⟩
  · rw [hr, hr2]

/-- C6 counterexample: in the environment where the first `fwrite` fails,
`handle_client` on `"a\nb\n"` does not close: the failed append of `"a\n"`
is followed by a reply and by the processing of the next packet (the file
ends up holding only `"b\n"`), so the Handler does not transition to
CLOSING on an append failure as the claim states. -/
theorem c6_counterexample :
    (handleClient fwriteFailEnv [] [[97, 10, 98, 10]]).trace =
      [Ev.append [97, 10] false, Ev.reply [] true,
       Ev.append [98, 10] true, Ev.reply [98, 10] true] ∧
    (handleClient fwriteFailEnv [] [[97, 10, 98, 10]]).file = [98, 10] ∧
    (handleClient fwriteFailEnv [] [[97, 10, 98, 10]]).aborted = false := by decide

/-- C6 (amended): `handle_client` never checks the result of the
`fwrite`/`fflush` append, so it transitions to REPLYING after every yielded
packet regardless of whether the append succeeded, and append failures do
not stop packet processing.  Formally, for an arbitrary fwrite oracle the
run never aborts, every delimited packet produces an append attempt, and
every append attempt is followed by a reply (one reply per append). -/
theorem c6_amended_append_failure_not_detected (fw : Nat → Bool) (file0 : List Nat)
    (cs : List (List Nat)) :
    (handleClient { okEnv with fwriteOk := fw } file0 cs).aborted = false ∧
    appendsOf (handleClient { okEnv with fwriteOk := fw } file0 cs).trace
        = packetsOf cs.flatten ∧
    (repliesOf (handleClient { okEnv with fwriteOk := fw } file0 cs).trace).length
        = (appendsOf (handleClient { okEnv with fwriteOk := fw } file0 cs).trace).length := by
  obtain ⟨ha, _, ht, _, _, _, _⟩ :=
    handleClient_core { okEnv with fwriteOk := fw } (fun _ => rfl) (fun _ => rfl) file0 cs
  refine ⟨ha, ?_, ?_⟩
  · rw [ht, replyRun_appends]
    simp [appendsOf]
  · rw [ht, replyRun_appends, replyRun_replies_len]
    simp [appendsOf, repliesOf]

/-- C7: when growing the receive buffer fails (realloc returns NULL while a
non-empty chunk does not fit), the ingest fails deterministically: the state
is unchanged except that the connection is aborted with the receive buffer
freed, the store handle and the client socket closed (no append, no reply,
no change to the file or the buffered bytes — no torn intermediate state);
and the server loop still handles every connection in its queue, so only the
current connection ends, never the server process. -/
theorem c7_realloc_failure_cleanup (env : HEnv) (st : HState) (c : List Nat)
    (hab : st.aborted = false) (hc : c ≠ [])
    (hg : st.recvbuf.length + c.length ≥ st.bufsize)
    (hre : env.reallocOk st.reallocCnt = false) :
    ingest env st c =
      { st with
        aborted := true, freed := true, fileClosed := true, sockClosed := true,
        reallocCnt := st.reallocCnt + 1 } ∧
    ∀ (file0 : List Nat) (conns : List (HEnv × List (List Nat))),
      (serverRun file0 conns).1.length = conns.length := by
  constructor
  · have hc' : c.isEmpty = false := by simpa using hc
    simp [ingest, hab, hc', hg, hre]
  · intro file0 conns
    induction conns generalizing file0 with
    | nil => rfl
    | cons conn rest ih => simp [serverRun, ih]

/-- Witness for C7 at a concrete input: every realloc fails and a fresh
connection receives a 1024-byte chunk, which does not fit in the initial
1024-byte buffer. -/
theorem c7_realloc_failure_cleanup_witness :
    (initState []).aborted = false ∧
    List.replicate 1024 97 ≠ ([] : List Nat) ∧
    (initState []).recvbuf.length + (List.replicate 1024 97).length ≥ (initState []).bufsize ∧
    reallocFailEnv.reallocOk (initState []).reallocCnt = false ∧
    (ingest reallocFailEnv (initState []) (List.replicate 1024 97) =
      { (initState []) with
        aborted := true, freed := true, fileClosed := true, sockClosed := true,
        reallocCnt := (initState []).reallocCnt + 1 } ∧
    ∀ (file0 : List Nat) (conns : List (HEnv × List (List Nat))),
      (serverRun file0 conns).1.length = conns.length) := by
  have h2 : List.replicate 1024 97 ≠ ([] : List Nat) := by
    intro h
    have h4 := congrArg List.length h
    rw [List.length_replicate] at h4
    exact absurd h4 (by decide)
  have h3 : (initState []).recvbuf.length + (List.replicate 1024 97).length
      ≥ (initState []).bufsize := by
    rw [List.length_replicate]
    decide
  exact ⟨rfl, h2, h3, rfl,
    c7_realloc_failure_cleanup reallocFailEnv (initState []) (List.replicate 1024 97)
      rfl h2 h3 rfl⟩

/-- C8: after any prefix of the chunks of a connection has been ingested (and
the buffer compacted), the receive buffer's capacity strictly exceeds its
length (`bufsize > datalen`), and the buffer holds exactly the received bytes
not yet consumed into a complete packet: appended packets plus buffered bytes
reassemble the bytes received so far. -/
theorem c8_buffer_invariant (file0 : List Nat) (cs : List (List Nat)) (i : Nat) :
    (runChunks okEnv (initState file0) (cs.take i)).recvbuf.length
        < (runChunks okEnv (initState file0) (cs.take i)).bufsize ∧
    (appendsOf (runChunks okEnv (initState file0) (cs.take i)).trace).flatten
        ++ (runChunks okEnv (initState file0) (cs.take i)).recvbuf = (cs.take i).flatten := by
  constructor
  · exact runChunks_inv okEnv (fun _ => rfl) (fun _ => rfl) (cs.take i) (initState file0)
      rfl (by simp [initState]) (by simp [initState])
  · obtain ⟨h1, _, h3, _, _, _, _⟩ := runChunks_abs okEnv (fun _ => rfl) (fun _ => rfl)
      (cs.take i) (initState file0) rfl (by simp [initState])
    rw [h1, h3]
    simp only [absRun_eq]
    rw [replyRun_appends]
    simp only [absOf, initState, appendsOf, List.filterMap_nil, List.nil_append]
    exact packetsLoop_concat (cs.take i).flatten []

/-- C9: a chunk that contains no delimiter is pure buffering: ingesting it
changes neither the data file nor the trace (no append, no reply, no bytes
sent); the only observable effect is that the chunk is appended to the
receive buffer. -/
theorem c9_no_delimiter_chunk_only_buffers (file0 : List Nat) (cs : List (List Nat))
    (c : List Nat) (hnl : 10 ∉ c) :
    (ingest okEnv (runChunks okEnv (initState file0) cs) c).file
        = (runChunks okEnv (initState file0) cs).file ∧
    (ingest okEnv (runChunks okEnv (initState file0) cs) c).trace
        = (runChunks okEnv (initState file0) cs).trace ∧
    (ingest okEnv (runChunks okEnv (initState file0) cs) c).recvbuf
        = (runChunks okEnv (initState file0) cs).recvbuf ++ c := by
  obtain ⟨hr, _, _, hab, _, _, _⟩ := runChunks_abs okEnv (fun _ => rfl) (fun _ => rfl)
      cs (initState file0) rfl (by simp [initState])
  have hnlr : 10 ∉ (runChunks okEnv (initState file0) cs).recvbuf := by
    rw [hr, absRun_acc]
    exact packetsLoop_no_nl cs.flatten [] (by simp)
  have hstep := ingest_abs okEnv (fun _ => rfl) (fun _ => rfl)
      (runChunks okEnv (initState file0) cs) c hab hnlr
  rw [absFold_no_nl okEnv.fwriteOk okEnv.sendOk c
      (absOf (runChunks okEnv (initState file0) cs)
        (runChunks okEnv (initState file0) cs).recvbuf) hnl] at hstep
  refine ⟨?_, ?_, ?_⟩
  · rw [hstep]; simp [stOf, absOf]
  · rw [hstep]; simp [stOf, absOf]
  · rw [hstep]; simp [stOf, absOf]

/-- Witness for C9 at a concrete input: the chunk `"a"` on a fresh connection
is only buffered. -/
theorem c9_no_delimiter_chunk_only_buffers_witness :
    (10 : Nat) ∉ ([97] : List Nat) ∧
    ((ingest okEnv (runChunks okEnv (initState []) []) [97]).file
        = (runChunks okEnv (initState []) []).file ∧
     (ingest okEnv (runChunks okEnv (initState []) []) [97]).trace
        = (runChunks okEnv (initState []) []).trace ∧
     (ingest okEnv (runChunks okEnv (initState []) []) [97]).recvbuf
        = (runChunks okEnv (initState []) []).recvbuf ++ [97]) :=
  ⟨by decide, c9_no_delimiter_chunk_only_buffers [] [] [97] (by decide)⟩

/-- C10: a bare delimiter is a valid packet: when the receive buffer is empty
(a delimiter immediately follows the previous cut point) and the next chunk
is the single byte `'\n'`, the Handler appends the one-byte packet `"\n"` to
the data file and replies with the full file contents, exactly as for any
other packet. -/
theorem c10_bare_delimiter_is_valid_packet (file0 : List Nat) (cs : List (List Nat))
    (hempty : (runChunks okEnv (initState file0) cs).recvbuf = []) :
    (ingest okEnv (runChunks okEnv (initState file0) cs) [10]).trace
        = (runChunks okEnv (initState file0) cs).trace
          ++ [Ev.append [10] true,
              Ev.reply ((runChunks okEnv (initState file0) cs).file ++ [10]) true] ∧
    (ingest okEnv (runChunks okEnv (initState file0) cs) [10]).file
        = (runChunks okEnv (initState file0) cs).file ++ [10] := by
  obtain ⟨_, _, _, hab, _, _, _⟩ := runChunks_abs okEnv (fun _ => rfl) (fun _ => rfl)
      cs (initState file0) rfl (by simp [initState])
  have hnlr : 10 ∉ (runChunks okEnv (initState file0) cs).recvbuf := by
    rw [hempty]
    simp
  have hstep := ingest_abs okEnv (fun _ => rfl) (fun _ => rfl)
      (runChunks okEnv (initState file0) cs) [10] hab hnlr
  rw [hempty] at hstep
  constructor
  · rw [hstep]
    simp [stOf, absOf, absStep, okEnv, sendFile_ok (fun _ => true) (fun _ => rfl),
      chunks1024_flatten]
  · rw [hstep]
    simp [stOf, absOf, absStep, okEnv, sendFile_ok (fun _ => true) (fun _ => rfl),
      chunks1024_flatten]

/-- Witness for C10 at a concrete input: a fresh connection that receives
only the byte `'\n'` appends the packet `"\n"` and replies `"\n"`. -/
theorem c10_bare_delimiter_is_valid_packet_witness :
    (runChunks okEnv (initState []) []).recvbuf = [] ∧
    ((ingest okEnv (runChunks okEnv (initState []) []) [10]).trace
        = (runChunks okEnv (initState []) []).trace
          ++ [Ev.append [10] true,
              Ev.reply ((runChunks okEnv (initState []) []).file ++ [10]) true] ∧
     (ingest okEnv (runChunks okEnv (initState []) []) [10]).file
        = (runChunks okEnv (initState []) []).file ++ [10]) :=
  ⟨rfl, c10_bare_delimiter_is_valid_packet [] [] rfl⟩
